import Mathlib

set_option autoImplicit false
set_option maxHeartbeats 1000000

/-!
Verification of the `event-source` SSE client (`dist/event-source.js`).

Strings are modelled as `List Char`.  The line scanner models the regex
`LINE = /([^\r\n]*)(?:\r\n|[\r\n])/gu` together with the `parseStream`
loop, which repeatedly executes `LINE` against the cumulative buffer
starting at `state.pos`.  Because the regex never looks behind
`lastIndex`, scanning the cumulative buffer from `state.pos` is
equivalent to scanning the unconsumed suffix from position 0; the
scanner below therefore works on that suffix and returns the completed
lines plus the unconsumed residual.
-/

namespace EventSource

/-- One full run of the `LINE.exec` loop of `parseStream` over a buffer
suffix: returns the list of completed lines (group 1 of each match) and
the unconsumed trailing text.  `\r\n` is preferred over a lone `\r`
exactly as the alternation `(?:\r\n|[\r\n])` does; a `\r` that is the
last character of the buffer is consumed as a complete terminator. -/
def scanLines : List Char → List (List Char) × List Char
  | [] => ([], [])
  | '\n' :: rest =>
    let r := scanLines rest
    ([] :: r.1, r.2)
  | '\r' :: '\n' :: rest =>
    let r := scanLines rest
    ([] :: r.1, r.2)
  | '\r' :: rest =>
    let r := scanLines rest
    ([] :: r.1, r.2)
  | c :: rest =>
    match scanLines rest with
    | (l :: ls, r) => ((c :: l) :: ls, r)
    | ([], r) => ([], c :: r)

/-- Incremental parsing: feed a sequence of deltas, carrying the
unconsumed residual across feeds (this is what keeping `state.pos` into
the growing `responseText` amounts to).  Returns all completed lines in
order together with the final residual. -/
def feedAll : List Char → List (List Char) → List (List Char) × List Char
  | r, [] => ([], r)
  | r, d :: ds =>
    let x := scanLines (r ++ d)
    let y := feedAll x.2 ds
    (x.1 ++ y.1, y.2)

/-- Does the text end with a carriage return? -/
def endsCR (l : List Char) : Bool := l.getLast? == some '\r'

/-- Does the text start with a line feed? -/
def startsLF (l : List Char) : Bool := l.head? == some '\n'

/-- No chunk boundary of the split falls between the CR and the LF of a
CRLF pair.  `a` is the text already fed, `ds` the remaining deltas. -/
def cleanCuts : List Char → List (List Char) → Prop
  | _, [] => True
  | a, d :: ds =>
    ¬(endsCR a = true ∧ startsLF ((d :: ds).flatten) = true) ∧ cleanCuts (a ++ d) ds

/-! ## Field processing

Translated from `processField`, `dispatchMessage`, `parseStream` and
`createMessageEvent` in `dist/event-source.js`. -/

/-- The three states of `exports.ReadyState`. -/
inductive ReadyState
  | CONNECTING
  | OPEN
  | CLOSED
  deriving DecidableEq, Repr

/-- The payload of a `MessageEvent` built by `createMessageEvent`. -/
structure MessageEvent where
  type : List Char
  data : List Char
  origin : List Char
  lastEventId : List Char
  deriving DecidableEq, Repr

/-- The connection-persistent internal slots used by parsing and
reconnection (`internalSlots`): `reconnectionTime`, `lastEventId`,
`readyState`, `additionalReconnectionTime`. -/
structure Slots where
  reconnectionTime : ℚ
  lastEventId : List Char
  readyState : ReadyState
  additionalReconnectionTime : ℚ
  deriving DecidableEq, Repr

/-- The per-connection-attempt state: the `state` record created in
`createConnection` (`origin`, `data`, `type`, `lastEventId`, `pos`),
the `first` flag, and the cumulative `request.responseText`
(`received`). -/
structure PState where
  first : Bool
  origin : List Char
  data : List Char
  type : List Char
  lastEventId : Option (List Char)
  pos : Nat
  received : List Char
  deriving DecidableEq, Repr

/-- `DIGITS = /^[0-9]+$/u` applied to a value. -/
def digitsTest (value : List Char) : Bool :=
  !value.isEmpty && value.all Char.isDigit

/-- `parseInt(value, 10)` on an all-digit value. -/
def parseDecimal (value : List Char) : ℕ :=
  value.foldl (fun acc c => 10 * acc + (c.toNat - '0'.toNat)) 0

/-- `processField(slots, state, fieldName, fieldValue)`. -/
def processField (s : Slots) (p : PState) (fieldName fieldValue : List Char) :
    Slots × PState :=
  let n := fieldName.map Char.toLower
  if n = "event".toList then
    (s, { p with type := fieldValue })
  else if n = "data".toList then
    (s, { p with data := p.data ++ fieldValue ++ ['\n'] })
  else if n = "id".toList then
    if fieldValue.contains '\x00' then (s, p)
    else (s, { p with lastEventId := some fieldValue })
  else if n = "retry".toList then
    if digitsTest fieldValue then
      ({ s with reconnectionTime := (parseDecimal fieldValue : ℚ) }, p)
    else (s, p)
  else (s, p)

/-- `dispatchMessage(source, slots, state)`: commits the pending id,
resets `data`/`type`, and returns the message event to queue (if any). -/
def dispatchMessage (s : Slots) (p : PState) : Slots × PState × Option MessageEvent :=
  let data := p.data
  let typ := p.type
  let lid := p.lastEventId
  let p1 := { p with data := [], type := [] }
  let s1 := match lid with
    | some v => { s with lastEventId := v }
    | none => s
  if data = [] then (s1, p1, none)
  else (s1, p1,
    some { type := if typ = [] then "message".toList else typ
         , data := data.dropLast
         , origin := p.origin
         , lastEventId := s1.lastEventId })

/-- The body of the `parseStream` loop for one complete line: empty
line dispatches, a line without a colon is a field with empty value, a
line starting with a colon is a comment, otherwise split at the first
colon stripping one space after it. -/
def processLine (s : Slots) (p : PState) (line : List Char) :
    Slots × PState × List MessageEvent :=
  if line = [] then
    let r := dispatchMessage s p
    (r.1, r.2.1, r.2.2.toList)
  else
    let name := line.takeWhile (fun c => c != ':')
    if name.length = line.length then
      let r := processField s p line []
      (r.1, r.2, [])
    else if name = [] then
      (s, p, [])
    else
      let rest := line.drop (name.length + 1)
      let value := match rest with
        | ' ' :: v => v
        | v => v
      let r := processField s p name value
      (r.1, r.2, [])

/-- Iterate `processLine` over the completed lines, collecting all
queued message events in order. -/
def processLines (s : Slots) (p : PState) : List (List Char) → Slots × PState × List MessageEvent
  | [] => (s, p, [])
  | line :: ls =>
    let r := processLine s p line
    let r2 := processLines r.1 r.2.1 ls
    (r2.1, r2.2.1, r.2.2 ++ r2.2.2)

/-- `parseStream(source, slots, state, buffer)`: scan the unconsumed
suffix of the cumulative buffer, advance `pos` past the fully
terminated lines, and process each line. -/
def parseStream (s : Slots) (p : PState) : Slots × PState × List MessageEvent :=
  let sc := scanLines (p.received.drop p.pos)
  processLines s { p with pos := p.received.length - sc.2.length } sc.1

/-- Field sequences: iterate `processField` over (name, value) pairs. -/
def processFields (s : Slots) (p : PState) : List (List Char × List Char) → Slots × PState
  | [] => (s, p)
  | f :: fs =>
    let r := processField s p f.1 f.2
    processFields r.1 r.2 fs

/-- Values of the `data` fields of a block (names case-insensitive). -/
def dataFieldValues (fs : List (List Char × List Char)) : List (List Char) :=
  (fs.filter (fun f => f.1.map Char.toLower == "data".toList)).map (fun f => f.2)

/-- The id value pending after a block: last NUL-free `id` value. -/
def lastBlockId (fs : List (List Char × List Char)) : Option (List Char) :=
  fs.foldl
    (fun acc f =>
      if f.1.map Char.toLower = "id".toList ∧ f.2.contains '\x00' = false then some f.2
      else acc)
    none

/-- Join strings with a single newline between them. -/
def joinNL : List (List Char) → List Char
  | [] => []
  | [v] => v
  | v :: vs => v ++ '\n' :: joinNL vs

/-- Initial slots: default reconnection time 4000, empty last event id,
CONNECTING, zero additional reconnection time. -/
def slots0 : Slots := ⟨4000, [], .CONNECTING, 0⟩

/-- Fresh per-attempt parse state as built in `createConnection`. -/
def pstate0 : PState := ⟨true, [], [], [], none, 0, []⟩

/-! ## Reconnection policy

Translated from `reestablishConnection` and `announceConnection`. -/

/-- The delay computation of `reestablishConnection`: the `setTimeout`
delay is `reconnectionTime + additionalReconnectionTime`, and the new
accumulator is
`rate * (reconnectionTime + additionalReconnectionTime) - reconnectionTime`. -/
def nextDelay (rate base add : ℚ) : ℚ × ℚ :=
  (base + add, rate * (base + add) - base)

/-- The accumulator after `n` consecutive reconnections with the base
interval unchanged, starting from `additionalReconnectionTime = 0`. -/
def additionalAfter (rate base : ℚ) : ℕ → ℚ
  | 0 => 0
  | n + 1 => (nextDelay rate base (additionalAfter rate base n)).2

/-- The delay of the `n`-th consecutive reconnection attempt
(1-indexed). -/
def nthDelay (rate base : ℚ) (n : ℕ) : ℚ :=
  (nextDelay rate base (additionalAfter rate base (n - 1))).1

/-! ## Connection state machine

Translated from `createConnection`, `announceConnection`,
`reestablishConnection`, `failConnection`, `close` and the request
callbacks `onprogress` / `onload` / `onerror` / `onabort`.  Work
deferred with `queue(...)` is a FIFO task list; `setTimeout` timers are
a counter of pending reconnection timers; notifications delivered to
the consumer by `dispatchEvent` are labels on steps. -/

/-- A notification delivered to the consumer via `dispatchEvent`. -/
inductive Notif
  | openEvt
  | errorEvt
  | messageEvt (e : MessageEvent)
  deriving DecidableEq, Repr

/-- Is this notification a message event? -/
def Notif.isMessage : Notif → Bool
  | Notif.messageEvt _ => true
  | _ => false

/-- A deferred task on the `queue(...)` FIFO: the bodies queued by
`announceConnection`, `reestablishConnection`, `failConnection`,
`dispatchMessage`, and by the `setTimeout` callback of
`reestablishConnection`. -/
inductive Task
  | announce
  | reestablish
  | fail
  | message (e : MessageEvent)
  | reconnect
  deriving DecidableEq, Repr

/-- The whole connection: internal slots, the active request with its
per-attempt parse state (if any), the deferred-task FIFO, the number of
pending reconnection timers, and whether an `online` listener is
registered. -/
structure Machine where
  slots : Slots
  conn : Option PState
  queue : List Task
  timers : ℕ
  waitingOnline : Bool
  deriving DecidableEq, Repr

/-- `createConnection`: if offline, register an `online` listener and
return; otherwise open a fresh request with a fresh parse state. -/
def createConnection (online : Bool) (m : Machine) : Machine :=
  if online then { m with conn := some pstate0 }
  else { m with waitingOnline := true }

/-- `announceConnection`: queue the OPEN/`"open"` task and reset the
additional reconnection time to 0. -/
def announceConnection (m : Machine) : Machine :=
  { m with queue := m.queue ++ [Task.announce],
           slots := { m.slots with additionalReconnectionTime := 0 } }

/-- `reestablishConnection`: queue the CONNECTING/`"error"` task, start
a timer whose delay is the first component of `nextDelay`, and store
the second component as the new accumulator. -/
def reestablishConnection (rate : ℚ) (m : Machine) : Machine :=
  { m with queue := m.queue ++ [Task.reestablish],
           timers := m.timers + 1,
           slots := { m.slots with additionalReconnectionTime :=
             (nextDelay rate m.slots.reconnectionTime
               m.slots.additionalReconnectionTime).2 } }

/-- `failConnection`: queue the close/`"error"` task. -/
def failConnection (m : Machine) : Machine :=
  { m with queue := m.queue ++ [Task.fail] }

/-- `close(slots)`: set `readyState` to CLOSED and abort and drop any
active request. -/
def doClose (m : Machine) : Machine :=
  { m with slots := { m.slots with readyState := .CLOSED }, conn := none }

/-- First-response validation: status 200 and a `Content-Type` header
that lower-cases to a string starting with `text/event-stream`. -/
def validates (status : ℕ) (contentType : Option (List Char)) : Bool :=
  status == 200 &&
    match contentType with
    | some t => "text/event-stream".toList.isPrefixOf (t.map Char.toLower)
    | none => false

/-- `request.onabort`: if not CLOSED, drop the request and reconnect
immediately (the only non-CLOSED abort is the buffer-guard one). -/
def onAbort (online : Bool) (m : Machine) : Machine :=
  if m.slots.readyState = .CLOSED then m
  else createConnection online { m with conn := none }

/-- Tail of `onprogress`: run `parseStream`, queue the produced message
events, then abort (and restart) if `responseText` got longer than the
buffer limit. -/
def progressParse (maxBuf : ℕ) (online : Bool) (m : Machine) (p : PState) : Machine :=
  let r := parseStream m.slots p
  let m1 := { m with slots := r.1, conn := some r.2.1,
                     queue := m.queue ++ r.2.2.map Task.message }
  if maxBuf < p.received.length then onAbort online m1 else m1

/-- `request.onprogress` upon arrival of `newData` (appended to the
cumulative `responseText`): validate the first response, then parse,
then consult the buffer guard. -/
def onProgress (maxBuf : ℕ) (status : ℕ) (contentType : Option (List Char))
    (originIn : List Char) (online : Bool) (newData : List Char)
    (m : Machine) (p : PState) : Machine :=
  if m.slots.readyState = .CLOSED ∨ status = 0 then m
  else
    let p1 := { p with received := p.received ++ newData }
    if p1.first then
      if validates status contentType then
        progressParse maxBuf online (announceConnection m)
          { p1 with first := false, origin := originIn }
      else
        failConnection { m with conn := some { p1 with first := false } }
    else
      progressParse maxBuf online m p1

/-- `request.onload`: reestablish on 200, fail on a first-response
204, otherwise only drop the request. -/
def onLoad (rate : ℚ) (status : ℕ) (m : Machine) (p : PState) : Machine :=
  if m.slots.readyState = .CLOSED ∨ status = 0 then m
  else
    let m1 := { m with conn := none }
    if status = 200 then reestablishConnection rate m1
    else if status = 204 ∧ p.first = true then failConnection m1
    else m1

/-- `request.onerror`: if not CLOSED, drop the request and
reestablish. -/
def onError (rate : ℚ) (m : Machine) : Machine :=
  if m.slots.readyState = .CLOSED then m
  else reestablishConnection rate { m with conn := none }

/-- The `online` listener registered by `createConnection`: removes
itself, then reconnects unless CLOSED. -/
def onOnline (online : Bool) (m : Machine) : Machine :=
  let m1 := { m with waitingOnline := false }
  if m1.slots.readyState = .CLOSED then m1
  else createConnection online m1

/-- Run one dequeued task (the body of the corresponding `queue(...)`
closure); returns the successor machine and the notifications delivered
to the consumer. -/
def runTask (online : Bool) (t : Task) (m : Machine) : Machine × List Notif :=
  match t with
  | Task.announce =>
      if m.slots.readyState = .CLOSED then (m, [])
      else ({ m with slots := { m.slots with readyState := .OPEN } }, [Notif.openEvt])
  | Task.reestablish =>
      if m.slots.readyState = .CLOSED then (m, [])
      else ({ m with slots := { m.slots with readyState := .CONNECTING } },
            [Notif.errorEvt])
  | Task.fail =>
      if m.slots.readyState = .CLOSED then (m, [])
      else (doClose m, [Notif.errorEvt])
  | Task.message e =>
      if m.slots.readyState = .CLOSED then (m, [])
      else (m, [Notif.messageEvt e])
  | Task.reconnect =>
      if m.slots.readyState = .CONNECTING then (createConnection online m, [])
      else (m, [])

/-- The machine right after `new EventSource(url)`: fresh slots with
the snapshotted default reconnection time, then `createConnection`. -/
def initMachine (reconnectionTime : ℚ) (online : Bool) : Machine :=
  createConnection online
    { slots := ⟨reconnectionTime, [], .CONNECTING, 0⟩
    , conn := none, queue := [], timers := 0, waitingOnline := false }

/-- One step of the connection system: a transport callback on the
active request, a user `close()`, a reconnection timer firing, the
`online` event, or draining one deferred task.  The label is the list
of notifications delivered to the consumer during the step. -/
inductive Step (rate : ℚ) (maxBuf : ℕ) : Machine → List Notif → Machine → Prop
  | progress (m : Machine) (p : PState) (status : ℕ) (contentType : Option (List Char))
      (originIn : List Char) (online : Bool) (newData : List Char) :
      m.conn = some p →
      Step rate maxBuf m []
        (onProgress maxBuf status contentType originIn online newData m p)
  | load (m : Machine) (p : PState) (status : ℕ) :
      m.conn = some p →
      Step rate maxBuf m [] (onLoad rate status m p)
  | netError (m : Machine) (p : PState) :
      m.conn = some p →
      Step rate maxBuf m [] (onError rate m)
  | closeUser (m : Machine) :
      Step rate maxBuf m [] (doClose m)
  | timerFire (m : Machine) :
      0 < m.timers →
      Step rate maxBuf m []
        { m with timers := m.timers - 1, queue := m.queue ++ [Task.reconnect] }
  | onlineEvt (m : Machine) (online : Bool) :
      m.waitingOnline = true →
      Step rate maxBuf m [] (onOnline online m)
  | drain (m : Machine) (t : Task) (rest : List Task) (online : Bool) :
      m.queue = t :: rest →
      Step rate maxBuf m (runTask online t { m with queue := rest }).2
        (runTask online t { m with queue := rest }).1

/-- Multi-step runs, accumulating delivered notifications. -/
inductive Run (rate : ℚ) (maxBuf : ℕ) : Machine → List Notif → Machine → Prop
  | refl (m : Machine) : Run rate maxBuf m [] m
  | step (m : Machine) (l : List Notif) (m1 : Machine) (tr : List Notif) (m2 : Machine) :
      Step rate maxBuf m l m1 → Run rate maxBuf m1 tr m2 →
      Run rate maxBuf m (l ++ tr) m2

/-- The C9 invariant: either already CLOSED, or a fail task is in the
queue with no message task in front of it. -/
def failPending (m : Machine) : Prop :=
  m.slots.readyState = .CLOSED ∨
  ∃ pre post, m.queue = pre ++ Task.fail :: post ∧
    ∀ e : MessageEvent, Task.message e ∉ pre

/-! ## Theorems -/

theorem endsCR_cons (c : Char) (l : List Char) (h : l ≠ []) :
    endsCR (c :: l) = endsCR l := by
  cases l with
  | nil => exact absurd rfl h
  | cons x xs => simp [endsCR, List.getLast?_cons_cons]

theorem startsLF_append_of_startsLF (d x : List Char) (h : startsLF d = true) :
    startsLF (d ++ x) = true := by
  cases d with
  | nil => simp [startsLF] at h
  | cons c t => simpa [startsLF] using h

theorem cond_tail {c : Char} {rest b : List Char}
    (h : ¬(endsCR (c :: rest) = true ∧ startsLF b = true)) :
    ¬(endsCR rest = true ∧ startsLF b = true) := by
  rcases Decidable.em (rest = []) with he | he
  · subst he; simp [endsCR]
  · rw [endsCR_cons c rest he] at h; exact h

/-- Scanning a buffer that is later extended agrees with scanning the
whole buffer, provided the extension point does not fall between a CR
and an immediately following LF. -/
theorem scanLines_append (a : List Char) : ∀ (b : List Char),
    ¬(endsCR a = true ∧ startsLF b = true) →
    scanLines (a ++ b) =
      ((scanLines a).1 ++ (scanLines ((scanLines a).2 ++ b)).1,
       (scanLines ((scanLines a).2 ++ b)).2) := by
  induction a using scanLines.induct with
  | case1 =>
      intro b h
      simp [scanLines.eq_1]
  | case2 rest ih =>
      intro b h
      have hx := ih b (cond_tail h)
      rw [List.cons_append, scanLines.eq_2, scanLines.eq_2, hx]
      simp
  | case3 rest ih =>
      intro b h
      have hx := ih b (cond_tail (cond_tail h))
      rw [List.cons_append, List.cons_append, scanLines.eq_3, scanLines.eq_3, hx]
      simp
  | case4 rest hne ih =>
      intro b h
      cases rest with
      | nil =>
          have hb : startsLF b = false := by
            cases hsb : startsLF b
            · rfl
            · exact absurd ⟨by simp [endsCR], hsb⟩ h
          cases b with
          | nil => simp [scanLines.eq_1, scanLines.eq_4 [] (by intro r hr; cases hr)]
          | cons c b' =>
              have hc : c ≠ '\n' := by
                intro hcc
                subst hcc
                simp [startsLF] at hb
              have hne1 : ∀ r1 : List Char, (c :: b') = '\n' :: r1 → False := by
                intro r1 hr
                exact hc (List.cons.injEq .. ▸ hr |>.1)
              rw [scanLines.eq_4 [] (by intro r hr; cases hr)]
              simp only [scanLines.eq_1, List.nil_append]
              rw [show ['\r'] ++ c :: b' = '\r' :: (c :: b') from rfl]
              rw [scanLines.eq_4 (c :: b') hne1]
              simp
      | cons c rest' =>
          have hc : c ≠ '\n' := fun hcc => hne rest' (by rw [hcc])
          have hne2 : ∀ r1 : List Char, (c :: rest') ++ b = '\n' :: r1 → False := by
            intro r1 hr
            rw [List.cons_append] at hr
            exact hc (List.cons.injEq .. ▸ hr |>.1)
          have hx := ih b (cond_tail h)
          rw [List.cons_append, scanLines.eq_4 (c :: rest' ++ b) (by
                intro r1 hr
                exact hne2 r1 (by simpa using hr))]
          rw [scanLines.eq_4 (c :: rest') (fun r1 hr => hc (List.cons.injEq .. ▸ hr |>.1))]
          rw [show c :: rest' ++ b = (c :: rest') ++ b from rfl, hx]
          simp
  | case5 c rest h1 h2 h3 l ls r hEq ih =>
      intro b h
      have hx := ih b (cond_tail h)
      have h2' : ∀ r1 : List Char, c = '\r' → rest ++ b = '\n' :: r1 → False :=
        fun _ hcc _ => h3 hcc
      rw [List.cons_append, scanLines.eq_5 c (rest ++ b) h1 h2' h3,
          scanLines.eq_5 c rest h1 h2 h3, hEq, hx, hEq]
      simp
  | case6 c rest h1 h2 h3 r hEq ih =>
      intro b h
      have hx := ih b (cond_tail h)
      have h2' : ∀ r1 : List Char, c = '\r' → rest ++ b = '\n' :: r1 → False :=
        fun _ hcc _ => h3 hcc
      have h2'' : ∀ r1 : List Char, c = '\r' → r ++ b = '\n' :: r1 → False :=
        fun _ hcc _ => h3 hcc
      rw [List.cons_append, scanLines.eq_5 c (rest ++ b) h1 h2' h3,
          scanLines.eq_5 c rest h1 h2 h3, hEq, hx, hEq]
      rw [List.nil_append, List.cons_append, scanLines.eq_5 c (r ++ b) h1 h2'' h3]
      rcases hm : scanLines (r ++ b) with ⟨fst, snd⟩
      cases fst <;> simp

/-- Incremental scanning over successive deltas agrees with scanning
the concatenation, provided no cut splits a CRLF pair. -/
theorem scanLines_feedAll : ∀ (ds : List (List Char)) (a : List Char), cleanCuts a ds →
    scanLines (a ++ ds.flatten) =
      ((scanLines a).1 ++ (feedAll (scanLines a).2 ds).1, (feedAll (scanLines a).2 ds).2) := by
  intro ds
  induction ds with
  | nil =>
      intro a h
      simp [feedAll]
  | cons d ds ih =>
      intro a h
      obtain ⟨h1, h2⟩ := h
      have hcond : ¬(endsCR a = true ∧ startsLF d = true) := by
        rintro ⟨he, hs⟩
        exact h1 ⟨he, by simpa using startsLF_append_of_startsLF d ds.flatten hs⟩
      have hstep := scanLines_append a d hcond
      have hih := ih (a ++ d) h2
      have hflat : a ++ (d :: ds).flatten = (a ++ d) ++ ds.flatten := by
        simp
      rw [hflat, hih, hstep]
      simp [feedAll, List.append_assoc]

theorem feedAll_eq_whole (ds : List (List Char)) (h : cleanCuts [] ds) :
    feedAll [] ds = scanLines ds.flatten := by
  have := scanLines_feedAll ds [] h
  simp [scanLines.eq_1] at this
  rw [this]

theorem processField_data (s : Slots) (p : PState) (n v : List Char) :
    (processField s p n v).2.data =
      if n.map Char.toLower = "data".toList then p.data ++ v ++ ['\n'] else p.data := by
  simp only [processField]
  split_ifs with h1 h2 h3 h4 h5 <;> simp_all

theorem processField_lastEventId (s : Slots) (p : PState) (n v : List Char) :
    (processField s p n v).2.lastEventId =
      if n.map Char.toLower = "id".toList ∧ v.contains '\x00' = false then some v
      else p.lastEventId := by
  simp only [processField]
  split_ifs with h1 h2 h3 h4 h5 <;> simp_all

theorem processField_frame (s : Slots) (p : PState) (n v : List Char) :
    (processField s p n v).1.lastEventId = s.lastEventId ∧
    (processField s p n v).1.readyState = s.readyState ∧
    (processField s p n v).1.additionalReconnectionTime = s.additionalReconnectionTime ∧
    (processField s p n v).2.origin = p.origin ∧
    (processField s p n v).2.first = p.first ∧
    (processField s p n v).2.pos = p.pos ∧
    (processField s p n v).2.received = p.received := by
  simp only [processField]
  split_ifs <;> simp_all

theorem processFields_data : ∀ (fs : List (List Char × List Char)) (s : Slots) (p : PState),
    (processFields s p fs).2.data =
      p.data ++ ((dataFieldValues fs).map (fun v => v ++ ['\n'])).flatten := by
  intro fs
  induction fs with
  | nil => intro s p; simp [processFields, dataFieldValues]
  | cons f fs ih =>
      intro s p
      simp only [processFields]
      rw [ih]
      rw [processField_data]
      by_cases hd : f.1.map Char.toLower = "data".toList
      · have hd2 : (List.map Char.toLower f.1 = ['d', 'a', 't', 'a']) = True := by
          simpa using hd
        simp [dataFieldValues, List.filter_cons, hd2, List.append_assoc]
      · have hd2 : (List.map Char.toLower f.1 = ['d', 'a', 't', 'a']) = False := by
          simpa using hd
        simp [dataFieldValues, List.filter_cons, hd2]

theorem processFields_lastEventId : ∀ (fs : List (List Char × List Char)) (s : Slots) (p : PState),
    (processFields s p fs).2.lastEventId =
      fs.foldl
        (fun acc f =>
          if f.1.map Char.toLower = "id".toList ∧ f.2.contains '\x00' = false then some f.2
          else acc)
        p.lastEventId := by
  intro fs
  induction fs with
  | nil => intro s p; simp [processFields]
  | cons f fs ih =>
      intro s p
      simp only [processFields, List.foldl_cons]
      rw [ih, processField_lastEventId]

theorem processFields_frame : ∀ (fs : List (List Char × List Char)) (s : Slots) (p : PState),
    (processFields s p fs).1.lastEventId = s.lastEventId ∧
    (processFields s p fs).1.readyState = s.readyState ∧
    (processFields s p fs).1.additionalReconnectionTime = s.additionalReconnectionTime ∧
    (processFields s p fs).2.origin = p.origin ∧
    (processFields s p fs).2.first = p.first ∧
    (processFields s p fs).2.pos = p.pos ∧
    (processFields s p fs).2.received = p.received := by
  intro fs
  induction fs with
  | nil => intro s p; simp [processFields]
  | cons f fs ih =>
      intro s p
      simp only [processFields]
      obtain ⟨a1, a2, a3, a4, a5, a6, a7⟩ := processField_frame s p f.1 f.2
      obtain ⟨b1, b2, b3, b4, b5, b6, b7⟩ :=
        ih (processField s p f.1 f.2).1 (processField s p f.1 f.2).2
      exact ⟨b1.trans a1, b2.trans a2, b3.trans a3, b4.trans a4, b5.trans a5,
        b6.trans a6, b7.trans a7⟩

theorem dropLast_append_of_ne_nil (xs : List Char) : ∀ (ys : List Char), ys ≠ [] →
    (xs ++ ys).dropLast = xs ++ ys.dropLast := by
  induction xs with
  | nil => intro ys _; simp
  | cons x xs ih =>
      intro ys hy
      rw [List.cons_append]
      rw [List.dropLast_cons_of_ne_nil (by simp [hy]), ih ys hy, List.cons_append]

theorem flatten_newline_dropLast : ∀ (vs : List (List Char)),
    ((vs.map (fun v => v ++ ['\n'])).flatten).dropLast = joinNL vs := by
  intro vs
  induction vs using joinNL.induct with
  | case1 => simp [joinNL]
  | case2 v => simp [joinNL]
  | case3 v vs hne ih =>
      cases vs with
      | nil => exact absurd rfl hne
      | cons w vs2 =>
          have hflat : (((w :: vs2).map (fun v => v ++ ['\n'])).flatten) ≠ [] := by
            simp
          rw [List.map_cons, List.flatten_cons]
          rw [dropLast_append_of_ne_nil _ _ hflat, ih]
          rw [show joinNL (v :: w :: vs2) = v ++ '\n' :: joinNL (w :: vs2) from rfl]
          simp

theorem flatten_newline_ne_nil (vs : List (List Char)) (h : vs ≠ []) :
    ((vs.map (fun v => v ++ ['\n'])).flatten) ≠ [] := by
  cases vs with
  | nil => exact absurd rfl h
  | cons w vs2 => simp

theorem block_dispatch_spec (s : Slots) (p : PState) (fs : List (List Char × List Char))
    (hd : p.data = []) (hid : p.lastEventId = none) :
    (dataFieldValues fs = [] →
        (dispatchMessage (processFields s p fs).1 (processFields s p fs).2).2.2 = none ∧
        (dispatchMessage (processFields s p fs).1 (processFields s p fs).2).1.lastEventId =
          (lastBlockId fs).getD s.lastEventId) ∧
    (dataFieldValues fs ≠ [] →
        (dispatchMessage (processFields s p fs).1 (processFields s p fs).2).2.2 =
          some { type := if (processFields s p fs).2.type = [] then "message".toList
                         else (processFields s p fs).2.type
               , data := joinNL (dataFieldValues fs)
               , origin := p.origin
               , lastEventId := (lastBlockId fs).getD s.lastEventId }
          ∧
        (dispatchMessage (processFields s p fs).1 (processFields s p fs).2).1.lastEventId =
          (lastBlockId fs).getD s.lastEventId) := by
  have h_data : (processFields s p fs).2.data =
      ((dataFieldValues fs).map (fun v => v ++ ['\n'])).flatten := by
    rw [processFields_data, hd, List.nil_append]
  have h_lid : (processFields s p fs).2.lastEventId = lastBlockId fs := by
    rw [processFields_lastEventId, hid, lastBlockId]
  obtain ⟨hf1, _, _, hf4, _, _, _⟩ := processFields_frame fs s p
  constructor
  · intro hvals
    rw [dispatchMessage]
    simp only [h_data, hvals, List.map_nil, List.flatten_nil, if_pos rfl, h_lid]
    cases hl : lastBlockId fs with
    | none => simp [hf1]
    | some v => simp
  · intro hvals
    rw [dispatchMessage]
    have hne := flatten_newline_ne_nil (dataFieldValues fs) hvals
    simp only [h_data, if_neg hne, h_lid]
    cases hl : lastBlockId fs with
    | none =>
        simp only [Option.getD_none]
        refine ⟨?_, by simp [hf1]⟩
        rw [flatten_newline_dropLast, hf1, hf4]
    | some v =>
        simp only [Option.getD_some]
        refine ⟨?_, by simp⟩
        rw [flatten_newline_dropLast, hf4]

/-- C1 (amended): incremental parsing is chunking-invariant provided no
chunk boundary falls between the CR and the LF of a CRLF pair: the
completed lines (and hence the events produced from them) agree with
feeding the whole text at once, for every such split. -/
theorem incremental_parse_agrees_on_clean_cuts (ds : List (List Char)) (h : cleanCuts [] ds) :
    feedAll [] ds = scanLines ds.flatten ∧
    ∀ (s : Slots) (p : PState),
      processLines s p (feedAll [] ds).1 = processLines s p (scanLines ds.flatten).1 := by
  refine ⟨feedAll_eq_whole ds h, ?_⟩
  intro s p
  rw [feedAll_eq_whole ds h]

/-- Witness for `incremental_parse_agrees_on_clean_cuts` at a concrete
two-chunk split. -/
theorem incremental_parse_agrees_on_clean_cuts_witness :
    cleanCuts [] ["data: a".toList, "\n\n".toList] ∧
    feedAll [] ["data: a".toList, "\n\n".toList] =
      scanLines (["data: a".toList, "\n\n".toList] : List (List Char)).flatten := by
  have hc : cleanCuts [] ["data: a".toList, "\n\n".toList] := by
    refine ⟨?_, ?_, trivial⟩ <;> decide
  exact ⟨hc, (incremental_parse_agrees_on_clean_cuts _ hc).1⟩

/-- C1 counterexample: a CRLF whose CR ends one chunk and whose LF
begins the next is treated as two terminators, so the line sequence
differs from feeding the whole text at once. -/
theorem incremental_parse_differs_on_split_crlf :
    (feedAll [] [['a', '\r'], ['\n']]).1 ≠
      (scanLines ([['a', '\r'], ['\n']] : List (List Char)).flatten).1 ∧
    (feedAll [] [['a', '\r'], ['\n']]).1 = [['a'], []] ∧
    (scanLines ([['a', '\r'], ['\n']] : List (List Char)).flatten).1 = [['a']] ∧
    (processLines slots0 pstate0
        (feedAll [] ["data: x\r".toList, "\ndata: y\n\n".toList]).1).2.2 ≠
      (processLines slots0 pstate0
        (scanLines (["data: x\r".toList, "\ndata: y\n\n".toList] :
          List (List Char)).flatten).1).2.2 := by
  refine ⟨by decide, by decide, by decide, by decide⟩

/-- C3 (amended): the parser performs no BOM stripping; a leading
U+FEFF stays in the first field name, so `processField` ignores any
field whose name starts with U+FEFF. -/
theorem bom_field_line_ignored (s : Slots) (p : PState) (rest value : List Char) :
    processField s p ('\uFEFF' :: rest) value = (s, p) := by
  have h0 : Char.toLower '\uFEFF' = '\uFEFF' := by decide
  simp only [processField, List.map_cons, h0]
  have h1 : ('\uFEFF' :: rest.map Char.toLower) ≠ "event".toList := by
    intro h
    exact absurd (List.cons.injEq .. ▸ h).1 (by decide)
  have h2 : ('\uFEFF' :: rest.map Char.toLower) ≠ "data".toList := by
    intro h
    exact absurd (List.cons.injEq .. ▸ h).1 (by decide)
  have h3 : ('\uFEFF' :: rest.map Char.toLower) ≠ "id".toList := by
    intro h
    exact absurd (List.cons.injEq .. ▸ h).1 (by decide)
  have h4 : ('\uFEFF' :: rest.map Char.toLower) ≠ "retry".toList := by
    intro h
    exact absurd (List.cons.injEq .. ▸ h).1 (by decide)
  rw [if_neg h1, if_neg h2, if_neg h3, if_neg h4]

/-- C3 counterexample: a stream whose first chunk begins with U+FEFF is
not processed like the BOM-less stream: `"\uFEFFdata: x\n\n"` produces
no event while `"data: x\n\n"` produces one. -/
theorem bom_stream_parses_differently :
    (processLines slots0 pstate0 (scanLines "\uFEFFdata: x\n\n".toList).1).2.2 = [] ∧
    (processLines slots0 pstate0 (scanLines "data: x\n\n".toList).1).2.2 =
      [⟨"message".toList, "x".toList, [], []⟩] ∧
    (processLines slots0 pstate0 (scanLines "\uFEFFdata: x\n\n".toList).1).2.2 ≠
      (processLines slots0 pstate0 (scanLines "data: x\n\n".toList).1).2.2 := by
  refine ⟨by decide, by decide, by decide⟩

/-- C10: a `retry` field with an empty value (both `"retry:"` and
`"retry: "`) is ignored entirely — in particular the reconnection
interval is unchanged — because `DIGITS = /^[0-9]+$/` requires at least
one digit and rejects the empty string. -/
theorem retry_empty_value_ignored (s : Slots) (p : PState) :
    processLine s p "retry:".toList = (s, p, []) ∧
    processLine s p "retry: ".toList = (s, p, []) ∧
    digitsTest [] = false :=
  ⟨rfl, rfl, rfl⟩

/-- Witness for `block_dispatch_spec` on the block
`id: 7` / `data: one`. -/
theorem block_dispatch_spec_witness :
    (dispatchMessage
        (processFields slots0 pstate0 [("id".toList, "7".toList), ("data".toList, "one".toList)]).1
        (processFields slots0 pstate0 [("id".toList, "7".toList), ("data".toList, "one".toList)]).2).2.2 =
      some ⟨"message".toList, "one".toList, [], "7".toList⟩ := by
  have h := (block_dispatch_spec slots0 pstate0
    [("id".toList, "7".toList), ("data".toList, "one".toList)] rfl rfl).2 (by decide)
  rw [h.1]
  decide

theorem additionalAfter_closed (rate base : ℚ) :
    ∀ n : ℕ, additionalAfter rate base n = base * rate ^ n - base := by
  intro n
  induction n with
  | zero => simp [additionalAfter]
  | succ n ih =>
      rw [additionalAfter, nextDelay, ih]
      ring

theorem dispatchMessage_slots_frame (s : Slots) (p : PState) :
    (dispatchMessage s p).1.readyState = s.readyState ∧
    (dispatchMessage s p).1.additionalReconnectionTime = s.additionalReconnectionTime ∧
    (dispatchMessage s p).1.reconnectionTime = s.reconnectionTime ∧
    (dispatchMessage s p).2.1.origin = p.origin ∧
    (dispatchMessage s p).2.1.first = p.first ∧
    (dispatchMessage s p).2.1.pos = p.pos ∧
    (dispatchMessage s p).2.1.received = p.received := by
  simp only [dispatchMessage]
  cases p.lastEventId <;> split_ifs <;> simp

theorem processLine_slots_frame (s : Slots) (p : PState) (line : List Char) :
    (processLine s p line).1.readyState = s.readyState ∧
    (processLine s p line).1.additionalReconnectionTime = s.additionalReconnectionTime ∧
    (processLine s p line).2.1.first = p.first ∧
    (processLine s p line).2.1.received = p.received := by
  simp only [processLine]
  split_ifs with h1 h2 h3
  · obtain ⟨a1, a2, _, _, a5, _, a7⟩ := dispatchMessage_slots_frame s p
    exact ⟨a1, a2, a5, a7⟩
  · obtain ⟨_, b2, b3, _, b5, _, b7⟩ := processField_frame s p line []
    exact ⟨b2, b3, b5, b7⟩
  · exact ⟨rfl, rfl, rfl, rfl⟩
  · obtain ⟨_, b2, b3, _, b5, _, b7⟩ :=
      processField_frame s p (line.takeWhile (fun c => c != ':'))
        (match line.drop ((line.takeWhile (fun c => c != ':')).length + 1) with
         | ' ' :: v => v
         | v => v)
    exact ⟨b2, b3, b5, b7⟩

theorem processLines_slots_frame : ∀ (ls : List (List Char)) (s : Slots) (p : PState),
    (processLines s p ls).1.readyState = s.readyState ∧
    (processLines s p ls).1.additionalReconnectionTime = s.additionalReconnectionTime ∧
    (processLines s p ls).2.1.first = p.first ∧
    (processLines s p ls).2.1.received = p.received := by
  intro ls
  induction ls with
  | nil => intro s p; exact ⟨rfl, rfl, rfl, rfl⟩
  | cons line ls ih =>
      intro s p
      simp only [processLines]
      obtain ⟨a1, a2, a3, a4⟩ := processLine_slots_frame s p line
      obtain ⟨b1, b2, b3, b4⟩ := ih (processLine s p line).1 (processLine s p line).2.1
      exact ⟨b1.trans a1, b2.trans a2, b3.trans a3, b4.trans a4⟩

theorem parseStream_frame (s : Slots) (p : PState) :
    (parseStream s p).1.readyState = s.readyState ∧
    (parseStream s p).1.additionalReconnectionTime = s.additionalReconnectionTime ∧
    (parseStream s p).2.1.received = p.received := by
  simp only [parseStream]
  obtain ⟨a1, a2, _, a4⟩ := processLines_slots_frame
    (scanLines (p.received.drop p.pos)).1 s
    { p with pos := p.received.length - (scanLines (p.received.drop p.pos)).2.length }
  exact ⟨a1, a2, a4⟩

theorem createConnection_frame (online : Bool) (m : Machine) :
    (createConnection online m).slots = m.slots ∧
    (createConnection online m).queue = m.queue ∧
    (createConnection online m).timers = m.timers := by
  simp only [createConnection]
  split_ifs <;> exact ⟨rfl, rfl, rfl⟩

theorem onAbort_frame (online : Bool) (m : Machine) :
    (onAbort online m).slots = m.slots ∧
    (onAbort online m).queue = m.queue ∧
    (onAbort online m).timers = m.timers := by
  simp only [onAbort]
  split_ifs with h
  · exact ⟨rfl, rfl, rfl⟩
  · obtain ⟨a1, a2, a3⟩ := createConnection_frame online { m with conn := none }
    exact ⟨a1, a2, a3⟩

theorem progressParse_readyState (maxBuf : ℕ) (online : Bool) (m : Machine) (p : PState) :
    (progressParse maxBuf online m p).slots.readyState = m.slots.readyState := by
  simp only [progressParse]
  split_ifs with h
  · obtain ⟨a1, _, _⟩ := onAbort_frame online
      { m with slots := (parseStream m.slots p).1,
               conn := some (parseStream m.slots p).2.1,
               queue := m.queue ++ (parseStream m.slots p).2.2.map Task.message }
    rw [a1]
    exact (parseStream_frame m.slots p).1
  · exact (parseStream_frame m.slots p).1

theorem onProgress_readyState (maxBuf status : ℕ) (contentType : Option (List Char))
    (originIn : List Char) (online : Bool) (newData : List Char)
    (m : Machine) (p : PState) :
    (onProgress maxBuf status contentType originIn online newData m p).slots.readyState =
      m.slots.readyState := by
  simp only [onProgress]
  split_ifs with h1 h2 h3
  · rfl
  · rw [progressParse_readyState]
    rfl
  · rfl
  · rw [progressParse_readyState]

theorem onLoad_readyState (rate : ℚ) (status : ℕ) (m : Machine) (p : PState) :
    (onLoad rate status m p).slots.readyState = m.slots.readyState := by
  simp only [onLoad]
  split_ifs <;> rfl

theorem onError_readyState (rate : ℚ) (m : Machine) :
    (onError rate m).slots.readyState = m.slots.readyState := by
  simp only [onError]
  split_ifs <;> rfl

theorem onOnline_readyState (online : Bool) (m : Machine) :
    (onOnline online m).slots.readyState = m.slots.readyState := by
  simp only [onOnline]
  split_ifs with h
  · rfl
  · obtain ⟨a1, _, _⟩ := createConnection_frame online { m with waitingOnline := false }
    rw [a1]

/-- From a CLOSED machine no step delivers anything, CLOSED persists,
and no request appears. -/
theorem step_from_closed {rate : ℚ} {maxBuf : ℕ} {m : Machine} {l : List Notif}
    {m' : Machine} (hc : m.slots.readyState = .CLOSED) (h : Step rate maxBuf m l m') :
    l = [] ∧ m'.slots.readyState = .CLOSED ∧ (m.conn = none → m'.conn = none) := by
  cases h with
  | progress p status ct orig online nd hconn =>
      refine ⟨rfl, ?_, ?_⟩ <;> simp [onProgress, hc]
  | load p status hconn =>
      refine ⟨rfl, ?_, ?_⟩ <;> simp [onLoad, hc]
  | netError p hconn =>
      refine ⟨rfl, ?_, ?_⟩ <;> simp [onError, hc]
  | closeUser =>
      exact ⟨rfl, rfl, fun _ => rfl⟩
  | timerFire ht =>
      exact ⟨rfl, hc, fun hn => hn⟩
  | onlineEvt online hw =>
      refine ⟨rfl, ?_, ?_⟩ <;> simp [onOnline, hc]
  | drain t rest online hq =>
      cases t <;> simp [runTask, hc]

/-- Runs from a CLOSED machine deliver nothing; CLOSED persists; and if
there was no request none ever appears (no reconnection attempt). -/
theorem run_from_closed {rate : ℚ} {maxBuf : ℕ} {m : Machine} {tr : List Notif}
    {m2 : Machine} (h : Run rate maxBuf m tr m2) :
    m.slots.readyState = .CLOSED →
    tr = [] ∧ m2.slots.readyState = .CLOSED ∧ (m.conn = none → m2.conn = none) := by
  induction h with
  | refl m => intro hc; exact ⟨rfl, hc, fun hn => hn⟩
  | step m l m1 tr m2 hs hr ih =>
      intro hc
      obtain ⟨hl, hc1, hconn⟩ := step_from_closed hc hs
      obtain ⟨htr, hc2, hconn2⟩ := ih hc1
      refine ⟨?_, hc2, fun hn => hconn2 (hconn hn)⟩
      rw [hl, htr]
      rfl

theorem progressParse_queue (maxBuf : ℕ) (online : Bool) (m : Machine) (p : PState) :
    ∃ ts, (progressParse maxBuf online m p).queue = m.queue ++ ts := by
  simp only [progressParse]
  split_ifs with h
  · obtain ⟨_, a2, _⟩ := onAbort_frame online
      { m with slots := (parseStream m.slots p).1,
               conn := some (parseStream m.slots p).2.1,
               queue := m.queue ++ (parseStream m.slots p).2.2.map Task.message }
    exact ⟨(parseStream m.slots p).2.2.map Task.message, a2⟩
  · exact ⟨(parseStream m.slots p).2.2.map Task.message, rfl⟩

theorem onProgress_queue (maxBuf status : ℕ) (contentType : Option (List Char))
    (originIn : List Char) (online : Bool) (newData : List Char)
    (m : Machine) (p : PState) :
    ∃ ts, (onProgress maxBuf status contentType originIn online newData m p).queue =
      m.queue ++ ts := by
  simp only [onProgress]
  split_ifs with h1 h2 h3
  · exact ⟨[], by simp⟩
  · obtain ⟨ts, hts⟩ := progressParse_queue maxBuf online (announceConnection m)
      { { p with received := p.received ++ newData } with first := false, origin := originIn }
    refine ⟨[Task.announce] ++ ts, ?_⟩
    rw [hts]
    simp [announceConnection]
  · exact ⟨[Task.fail], rfl⟩
  · obtain ⟨ts, hts⟩ := progressParse_queue maxBuf online m
      { p with received := p.received ++ newData }
    exact ⟨ts, hts⟩

theorem onLoad_queue (rate : ℚ) (status : ℕ) (m : Machine) (p : PState) :
    ∃ ts, (onLoad rate status m p).queue = m.queue ++ ts := by
  simp only [onLoad]
  split_ifs with h1 h2 h3
  · exact ⟨[], by simp⟩
  · exact ⟨[Task.reestablish], rfl⟩
  · exact ⟨[Task.fail], rfl⟩
  · exact ⟨[], by simp⟩

theorem onError_queue (rate : ℚ) (m : Machine) :
    ∃ ts, (onError rate m).queue = m.queue ++ ts := by
  simp only [onError]
  split_ifs with h1
  · exact ⟨[], by simp⟩
  · exact ⟨[Task.reestablish], rfl⟩

theorem onOnline_queue (online : Bool) (m : Machine) :
    (onOnline online m).queue = m.queue := by
  simp only [onOnline]
  split_ifs with h1
  · rfl
  · exact (createConnection_frame online { m with waitingOnline := false }).2.1

/-- C6: `readyState` is monotonic toward CLOSED, and every step takes
only the transitions CONNECTING→OPEN, OPEN→CONNECTING,
CONNECTING→CLOSED, OPEN→CLOSED (or leaves the state unchanged). -/
theorem readyState_transitions (rate : ℚ) (maxBuf : ℕ) (m : Machine) (l : List Notif)
    (m' : Machine) (h : Step rate maxBuf m l m') :
    (m.slots.readyState = .CLOSED → m'.slots.readyState = .CLOSED) ∧
    (m'.slots.readyState = m.slots.readyState ∨
     (m.slots.readyState = .CONNECTING ∧ m'.slots.readyState = .OPEN) ∨
     (m.slots.readyState = .OPEN ∧ m'.slots.readyState = .CONNECTING) ∨
     ((m.slots.readyState = .CONNECTING ∨ m.slots.readyState = .OPEN) ∧
       m'.slots.readyState = .CLOSED)) := by
  cases h with
  | progress p status ct orig online nd hconn =>
      have he := onProgress_readyState maxBuf status ct orig online nd m p
      exact ⟨fun hc => he.trans hc, Or.inl he⟩
  | load p status hconn =>
      have he := onLoad_readyState rate status m p
      exact ⟨fun hc => he.trans hc, Or.inl he⟩
  | netError p hconn =>
      have he := onError_readyState rate m
      exact ⟨fun hc => he.trans hc, Or.inl he⟩
  | closeUser =>
      refine ⟨fun _ => rfl, ?_⟩
      cases hm : m.slots.readyState with
      | CONNECTING => exact Or.inr (Or.inr (Or.inr ⟨Or.inl rfl, rfl⟩))
      | OPEN => exact Or.inr (Or.inr (Or.inr ⟨Or.inr rfl, rfl⟩))
      | CLOSED => exact Or.inl rfl
  | timerFire ht =>
      exact ⟨fun hc => hc, Or.inl rfl⟩
  | onlineEvt online hw =>
      have he := onOnline_readyState online m
      exact ⟨fun hc => he.trans hc, Or.inl he⟩
  | drain t rest online hq =>
      cases t with
      | announce =>
          cases hm : m.slots.readyState <;> simp [runTask, hm]
      | reestablish =>
          cases hm : m.slots.readyState <;> simp [runTask, hm]
      | fail =>
          cases hm : m.slots.readyState <;> simp [runTask, hm, doClose]
      | message e =>
          cases hm : m.slots.readyState <;> simp [runTask, hm]
      | reconnect =>
          cases hm : m.slots.readyState <;>
            simp [runTask, hm, createConnection] <;> split_ifs <;> tauto

/-- Witness for `readyState_transitions` at a user `close()` step. -/
theorem readyState_transitions_witness :
    ((initMachine 4000 true).slots.readyState = .CLOSED →
      (doClose (initMachine 4000 true)).slots.readyState = .CLOSED) ∧
    ((doClose (initMachine 4000 true)).slots.readyState =
        (initMachine 4000 true).slots.readyState ∨
     ((initMachine 4000 true).slots.readyState = .CONNECTING ∧
        (doClose (initMachine 4000 true)).slots.readyState = .OPEN) ∨
     ((initMachine 4000 true).slots.readyState = .OPEN ∧
        (doClose (initMachine 4000 true)).slots.readyState = .CONNECTING) ∨
     (((initMachine 4000 true).slots.readyState = .CONNECTING ∨
        (initMachine 4000 true).slots.readyState = .OPEN) ∧
        (doClose (initMachine 4000 true)).slots.readyState = .CLOSED)) :=
  readyState_transitions (3/2) 65536 (initMachine 4000 true) []
    (doClose (initMachine 4000 true)) (Step.closeUser (initMachine 4000 true))

/-- C7: after `close()` no notification of any kind is delivered, in
any continuation, including deliveries queued for data parsed before
the call: every queued task re-checks `readyState` and is dropped. -/
theorem no_delivery_after_close (rate : ℚ) (maxBuf : ℕ) (m : Machine)
    (tr : List Notif) (m2 : Machine) (h : Run rate maxBuf (doClose m) tr m2) :
    tr = [] :=
  (run_from_closed h rfl).1

/-- Witness for `no_delivery_after_close`: a queued message task is
drained after `close()` and delivers nothing. -/
theorem no_delivery_after_close_witness :
    ((runTask true (Task.message ⟨"message".toList, "x".toList, [], []⟩)
        { doClose
            { slots := ⟨4000, [], .OPEN, 0⟩, conn := none,
              queue := [Task.message ⟨"message".toList, "x".toList, [], []⟩],
              timers := 0, waitingOnline := false } with
          queue := [] }).2 ++ []) = [] :=
  no_delivery_after_close (3/2) 65536
    { slots := ⟨4000, [], .OPEN, 0⟩, conn := none,
      queue := [Task.message ⟨"message".toList, "x".toList, [], []⟩],
      timers := 0, waitingOnline := false } _ _
    (Run.step _ _ _ _ _
      (Step.drain _ (Task.message ⟨"message".toList, "x".toList, [], []⟩) [] true rfl)
      (Run.refl _))

/-- C8: the buffer-guard abort path (`request.onabort` reached with
`readyState ≠ CLOSED`) changes no slot (in particular neither
`readyState` nor the backoff accumulator), queues no task (so no
"error" notification is ever produced by it), starts no timer, and
immediately starts a new connection attempt. -/
theorem buffer_guard_restart_silent (online : Bool) (m : Machine) :
    (onAbort online m).slots = m.slots ∧
    (onAbort online m).queue = m.queue ∧
    (onAbort online m).timers = m.timers ∧
    (m.slots.readyState ≠ .CLOSED →
      onAbort online m = createConnection online { m with conn := none }) := by
  obtain ⟨a1, a2, a3⟩ := onAbort_frame online m
  refine ⟨a1, a2, a3, fun hne => ?_⟩
  simp [onAbort, hne]

/-- Witness for `buffer_guard_restart_silent` on an OPEN connection. -/
theorem buffer_guard_restart_silent_witness :
    (onAbort true
        { slots := ⟨4000, [], .OPEN, 0⟩, conn := some pstate0, queue := [],
          timers := 0, waitingOnline := false }).slots =
      ({ slots := ⟨4000, [], .OPEN, 0⟩, conn := some pstate0, queue := [],
          timers := 0, waitingOnline := false } : Machine).slots ∧
    onAbort true
        { slots := ⟨4000, [], .OPEN, 0⟩, conn := some pstate0, queue := [],
          timers := 0, waitingOnline := false } =
      createConnection true
        { ({ slots := ⟨4000, [], .OPEN, 0⟩, conn := some pstate0, queue := [],
              timers := 0, waitingOnline := false } : Machine) with conn := none } := by
  obtain ⟨a1, _, _, a4⟩ := buffer_guard_restart_silent true
    { slots := ⟨4000, [], .OPEN, 0⟩, conn := some pstate0, queue := [],
      timers := 0, waitingOnline := false }
  exact ⟨a1, a4 (by decide)⟩

/-- C5: with the base interval unchanged, the n-th consecutive
reconnection delay (1-indexed) is `base * rate ^ (n - 1)` — the
sequence B, B·R, B·R², … — and `announceConnection` (a successful
open) resets the accumulator to 0. -/
theorem reconnection_delay_geometric (rate base : ℚ) (n : ℕ) (hn : 1 ≤ n) :
    nthDelay rate base n = base * rate ^ (n - 1) ∧
    ∀ m : Machine, (announceConnection m).slots.additionalReconnectionTime = 0 := by
  refine ⟨?_, fun m => rfl⟩
  rw [nthDelay, nextDelay, additionalAfter_closed]
  ring

/-- Witness for `reconnection_delay_geometric`: the third delay with
base 100 and rate 3/2 is 225. -/
theorem reconnection_delay_geometric_witness :
    1 ≤ 3 ∧ nthDelay (3/2 : ℚ) 100 3 = 100 * (3/2 : ℚ) ^ (3 - 1) :=
  ⟨by norm_num, (reconnection_delay_geometric (3/2) 100 3 (by norm_num)).1⟩

/-- C2 (amended): among terminal (`onload`) outcomes, only a
first-response 204 is fatal: it queues the fail task, whose execution
closes the connection and delivers exactly one "error"; from a CLOSED
machine with no request, no notification is ever delivered and no
request is ever created again.  Every other non-0, non-200 terminal
status only drops the request: no state change, no notification, no
retry (such responses are made fatal only by the first-chunk validation
path, which requires a received chunk). -/
theorem terminal_status_handling (rate : ℚ) (maxBuf : ℕ) (m : Machine) (p : PState)
    (status : ℕ) (hs0 : status ≠ 0) (hcl : m.slots.readyState ≠ .CLOSED) :
    (status ≠ 200 → ¬(status = 204 ∧ p.first = true) →
        onLoad rate status m p = { m with conn := none }) ∧
    (p.first = true → onLoad rate 204 m p = failConnection { m with conn := none }) ∧
    (∀ (online : Bool) (m1 : Machine), m1.slots.readyState ≠ .CLOSED →
        runTask online Task.fail m1 = (doClose m1, [Notif.errorEvt])) ∧
    (∀ (mc : Machine) (tr : List Notif) (m2 : Machine),
        mc.slots.readyState = .CLOSED → mc.conn = none →
        Run rate maxBuf mc tr m2 → tr = [] ∧ m2.conn = none) := by
  refine ⟨?_, ?_, ?_, ?_⟩
  · intro h200 h204
    simp [onLoad, hs0, hcl, h200, h204]
  · intro hfirst
    simp [onLoad, hcl, hfirst]
  · intro online m1 h1
    simp [runTask, h1]
  · intro mc tr m2 hc hn hr
    obtain ⟨h1, _, h3⟩ := run_from_closed hr hc
    exact ⟨h1, h3 hn⟩

/-- C2 counterexample: a first response that terminates with status 500
and no received chunk leaves the machine CONNECTING with an empty task
queue, no timer, and no request — not CLOSED, and with no "error"
pending. -/
theorem load_500_without_chunk_stays_connecting :
    (onLoad (3/2) 500 (initMachine 4000 true) pstate0).slots.readyState =
      .CONNECTING ∧
    (onLoad (3/2) 500 (initMachine 4000 true) pstate0).queue = [] ∧
    (onLoad (3/2) 500 (initMachine 4000 true) pstate0).timers = 0 ∧
    (onLoad (3/2) 500 (initMachine 4000 true) pstate0).conn = none := by
  refine ⟨by decide, by decide, by decide, by decide⟩

/-- Witness for `terminal_status_handling` at status 500 on the fresh
machine. -/
theorem terminal_status_handling_witness :
    onLoad (3/2) 500 (initMachine 4000 true) pstate0 =
      { initMachine 4000 true with conn := none } :=
  (terminal_status_handling (3/2) 65536 (initMachine 4000 true) pstate0 500
      (by decide) (by decide)).1 (by decide) (by decide)

theorem failPending_step {rate : ℚ} {maxBuf : ℕ} {m : Machine} {l : List Notif}
    {m' : Machine} (hf : failPending m) (h : Step rate maxBuf m l m') :
    failPending m' ∧ l.all (fun n => !(Notif.isMessage n)) = true := by
  rcases hf with hc | ⟨pre, post, hq, hpre⟩
  · obtain ⟨hl, hc', _⟩ := step_from_closed hc h
    exact ⟨Or.inl hc', by rw [hl]; rfl⟩
  · cases h with
    | progress p status ct orig online nd hconn =>
        obtain ⟨ts, hts⟩ := onProgress_queue maxBuf status ct orig online nd m p
        refine ⟨Or.inr ⟨pre, post ++ ts, ?_, hpre⟩, rfl⟩
        rw [hts, hq]
        simp
    | load p status hconn =>
        obtain ⟨ts, hts⟩ := onLoad_queue rate status m p
        refine ⟨Or.inr ⟨pre, post ++ ts, ?_, hpre⟩, rfl⟩
        rw [hts, hq]
        simp
    | netError p hconn =>
        obtain ⟨ts, hts⟩ := onError_queue rate m
        refine ⟨Or.inr ⟨pre, post ++ ts, ?_, hpre⟩, rfl⟩
        rw [hts, hq]
        simp
    | closeUser =>
        exact ⟨Or.inl rfl, rfl⟩
    | timerFire ht =>
        refine ⟨Or.inr ⟨pre, post ++ [Task.reconnect], ?_, hpre⟩, rfl⟩
        rw [hq]
        simp
    | onlineEvt online hw =>
        refine ⟨Or.inr ⟨pre, post, ?_, hpre⟩, rfl⟩
        rw [onOnline_queue, hq]
    | drain t rest online hq2 =>
        cases pre with
        | nil =>
            simp only [List.nil_append] at hq
            have h12 : Task.fail :: post = t :: rest := by rw [← hq, hq2]
            have ht := (List.cons.injEq .. ▸ h12).1
            have hrest := (List.cons.injEq .. ▸ h12).2
            subst hrest
            cases ht
            by_cases hcm : m.slots.readyState = .CLOSED
            · refine ⟨Or.inl ?_, ?_⟩ <;> simp [runTask, hcm, Notif.isMessage]
            · refine ⟨Or.inl ?_, ?_⟩ <;> simp [runTask, hcm, doClose, Notif.isMessage]
        | cons t0 pre' =>
            have h12 : t0 :: (pre' ++ Task.fail :: post) = t :: rest := by
              rw [← hq2, hq, List.cons_append]
            have ht := (List.cons.injEq .. ▸ h12).1
            have hrest := (List.cons.injEq .. ▸ h12).2
            subst hrest
            rw [ht] at hpre
            have hpre' : ∀ e : MessageEvent, Task.message e ∉ pre' :=
              fun e he => hpre e (List.mem_cons_of_mem _ he)
            have hnotmsg : ∀ e : MessageEvent, t ≠ Task.message e :=
              fun e he => hpre e (he ▸ List.mem_cons_self t pre')
            by_cases hcm : m.slots.readyState = .CLOSED
            · cases t <;> refine ⟨Or.inl ?_, ?_⟩ <;> simp [runTask, hcm, Notif.isMessage]
            · cases t with
              | announce =>
                  refine ⟨Or.inr ⟨pre', post, ?_, hpre'⟩, ?_⟩ <;> simp [runTask, hcm, Notif.isMessage]
              | reestablish =>
                  refine ⟨Or.inr ⟨pre', post, ?_, hpre'⟩, ?_⟩ <;> simp [runTask, hcm, Notif.isMessage]
              | fail =>
                  refine ⟨Or.inl ?_, ?_⟩ <;> simp [runTask, hcm, doClose, Notif.isMessage]
              | message e =>
                  exact absurd rfl (hnotmsg e)
              | reconnect =>
                  by_cases hcn : m.slots.readyState = .CONNECTING
                  · refine ⟨Or.inr ⟨pre', post, ?_, hpre'⟩, ?_⟩ <;>
                      simp [runTask, hcn, createConnection] <;> split_ifs <;> rfl
                  · refine ⟨Or.inr ⟨pre', post, ?_, hpre'⟩, ?_⟩ <;> simp [runTask, hcn]

theorem failPending_run {rate : ℚ} {maxBuf : ℕ} {m : Machine} {tr : List Notif}
    {m2 : Machine} (h : Run rate maxBuf m tr m2) :
    failPending m → tr.all (fun n => !(Notif.isMessage n)) = true := by
  induction h with
  | refl m => intro _; rfl
  | step m l m1 tr m2 hs hr ih =>
      intro hf
      obtain ⟨hf1, hl⟩ := failPending_step hf hs
      have htr := ih hf1
      simp [List.all_append, hl, htr]

/-- C9: if the very first response of a fresh connection fails
validation, then no message notification is ever delivered in any
continuation, even though later chunks are still parsed: the fail task
precedes every message task in the FIFO, so by the time a message task
is drained the state is CLOSED and it is dropped. -/
theorem failed_validation_no_messages (rt rate : ℚ) (maxBuf status : ℕ)
    (contentType : Option (List Char)) (originIn newData : List Char) (online : Bool)
    (tr : List Notif) (m2 : Machine)
    (hv : validates status contentType = false) (hs : status ≠ 0)
    (hr : Run rate maxBuf
      (onProgress maxBuf status contentType originIn online newData
        (initMachine rt true) pstate0)
      tr m2) :
    tr.all (fun n => !(Notif.isMessage n)) = true := by
  apply failPending_run hr
  right
  refine ⟨[], [], ?_, by simp⟩
  simp [onProgress, initMachine, createConnection, pstate0, hv, hs, failConnection]

/-- Witness for `failed_validation_no_messages`: drain the fail task
after an invalid first response; only an "error" is delivered. -/
theorem failed_validation_no_messages_witness :
    ((runTask true Task.fail
        { onProgress 65536 500 (some "text/html".toList) [] true "x".toList
            (initMachine 4000 true) pstate0 with
          queue := [] }).2 ++ []).all (fun n => !(Notif.isMessage n)) = true :=
  failed_validation_no_messages 4000 (3/2) 65536 500 (some "text/html".toList) []
    ("x".toList) true _ _ (by decide) (by decide)
    (Run.step _ _ _ _ _
      (Step.drain _ Task.fail [] true (by decide))
      (Run.refl _))

end EventSource


